import Mathlib

set_option maxRecDepth 4000

/-!
Verification of the eip712 library (typed structured data hashing, EIP-712).

The development embeds, as executable Lean definitions:
 * a byte-level Keccak-256 (the external hash primitive, needed to settle the
   concrete hash-vector claims),
 * the EIP-712 hash engine (`encodeType` / `typeHash` / `encodeData` /
   `structHash` / `hash_domain` / `hash_eip712_message`), which the library
   delegates to the `eth_account` dependency; these are modelled from the
   specification's §4.5 description of that engine,
 * the library's own code: the domain resolver (`_domain_`), the canonical
   body (`_body_`), `signable_message` / `calculate_hash`, `__getitem__`,
   `validate_model`, and the type-graph builder `build_eip712_type` of
   `eip712/utils.py` together with `get_abi_type`.
-/

/-! ## Keccak-256 (external primitive)

The 25-lane state is packed into a single natural number (lane `i` occupies
bits `64*i .. 64*i+63`), so that every step is plain natural-number
arithmetic. -/

/-- All-ones mask for one 64-bit lane. -/
def mask64 : Nat := 0xFFFFFFFFFFFFFFFF

/-- Rotate a 64-bit word (a `Nat` below `2^64`) left by `k` bits. -/
def rotl64 (n k : Nat) : Nat :=
  ((n <<< k) ||| (n >>> (64 - k))) % (2 ^ 64)

/-- Lane `i` of a packed Keccak state (index `i = x + 5*y`). -/
def lane (s : Nat) (i : Nat) : Nat := (s >>> (64 * i)) &&& mask64

/-- Repack 25 lanes given as a function on lane indices. -/
def packLanes (f : Nat → Nat) : Nat :=
  (List.range 25).foldl (fun acc i => acc ||| (f i <<< (64 * i))) 0

/-- Column parity used by the theta step. -/
def colParity (s : Nat) (x : Nat) : Nat :=
  lane s x ^^^ lane s (x + 5) ^^^ lane s (x + 10) ^^^ lane s (x + 15) ^^^ lane s (x + 20)

/-- Theta step of Keccak-f[1600]. -/
def theta (s : Nat) : Nat :=
  packLanes fun i =>
    lane s i ^^^ colParity s ((i % 5 + 4) % 5) ^^^ rotl64 (colParity s ((i % 5 + 1) % 5)) 1

/-- For each output lane index, the source lane index and rotation amount of the
combined rho and pi steps. -/
def rhoPiTable : List (Nat × Nat) :=
  [(0, 0), (6, 44), (12, 43), (18, 21), (24, 14), (3, 28), (9, 20), (10, 3), (16, 45),
   (22, 61), (1, 1), (7, 6), (13, 25), (19, 8), (20, 18), (4, 27), (5, 36), (11, 10),
   (17, 15), (23, 56), (2, 62), (8, 55), (14, 39), (15, 41), (21, 2)]

/-- Combined rho and pi steps of Keccak-f[1600]. -/
def rhoPi (s : Nat) : Nat :=
  packLanes fun i =>
    let p := rhoPiTable.getD i (0, 0)
    rotl64 (lane s p.1) p.2

/-- Chi step of Keccak-f[1600]. -/
def chi (s : Nat) : Nat :=
  packLanes fun i =>
    lane s i ^^^ ((lane s (i - i % 5 + (i % 5 + 1) % 5) ^^^ mask64) &&&
      lane s (i - i % 5 + (i % 5 + 2) % 5))

/-- Iterate the degree-8 LFSR (polynomial `x^8 + x^6 + x^5 + x^4 + 1`) that
generates the iota round-constant bits. -/
def lfsrIter : Nat → Nat → Nat
  | 0, r => r
  | n + 1, r => lfsrIter n ((r <<< 1) ^^^ (((r >>> 7) &&& 1) * 0x171))

/-- Bit `t` of the round-constant sequence. -/
def rcBit (t : Nat) : Nat := lfsrIter (t % 255) 1 &&& 1

/-- Round constant of round `ir`: bit `j + 7*ir` of the sequence is placed at
lane-bit position `2^j - 1`. -/
def roundConstant (ir : Nat) : Nat :=
  (List.range 7).foldl (fun acc j => acc ||| (rcBit (j + 7 * ir) <<< (2 ^ j - 1))) 0

/-- The 24 Keccak round constants, derived from the LFSR. -/
def roundConstants : List Nat := (List.range 24).map roundConstant

example : roundConstants.getD 0 0 = 1 := by decide
example : roundConstants.getD 23 0 = 0x8000000080008008 := by decide

/-- Force a natural number to a literal before passing it on; this keeps
definitional evaluation of the iterated permutation shallow. -/
def withForced (n : Nat) (k : Nat → Nat) : Nat :=
  match n with
  | 0 => k 0
  | m + 1 => k (m + 1)

/-- Iterate the round function over the given round constants. -/
def keccakRounds : List Nat → Nat → Nat
  | [], s => s
  | rc :: rest, s => withForced (chi (rhoPi (theta s)) ^^^ rc) (keccakRounds rest)

/-- The full Keccak-f[1600] permutation (iota folded in as a final xor). -/
def keccakF (s : Nat) : Nat :=
  keccakRounds roundConstants s

/-- Interpret a byte list as a little-endian natural number. -/
def leNat : List Nat → Nat
  | [] => 0
  | b :: bs => b + 256 * leNat bs

/-- Keccak (pre-NIST) multi-rate padding for rate 136: append `0x01 .. 0x80`. -/
def keccakPad (msg : List Nat) : List Nat :=
  let p := 136 - msg.length % 136
  if p = 1 then msg ++ [0x81]
  else msg ++ 0x01 :: (List.replicate (p - 2) 0 ++ [0x80])

/-- Absorb `n` consecutive 136-byte blocks of `bs` into the state. -/
def absorbBlocks : Nat → Nat → List Nat → Nat
  | 0, s, _ => s
  | n + 1, s, bs =>
      withForced (keccakF (s ^^^ leNat (bs.take 136))) fun st => absorbBlocks n st (bs.drop 136)

/-- Keccak-256 over a byte list, producing the 32-byte digest. -/
def keccak256 (msg : List Nat) : List Nat :=
  let padded := keccakPad msg
  let s := absorbBlocks (padded.length / 136) 0 padded
  (List.range 32).map fun i => (s >>> (8 * i)) % 256

/-- Big-endian interpretation of a byte list as a natural number. -/
def beNat (bs : List Nat) : Nat :=
  bs.foldl (fun acc b => acc * 256 + b) 0

example : beNat (keccak256 []) =
    0xc5d2460186f7233c927e7db2dcc703c0e500b653ca82273b7bfad8045d85a470 := by decide

example : beNat (keccak256 [97, 98, 99]) =
    0x4e03657aea45a94fc7d47ba826c8d667c0d1e6e33a64a036ec44f58fa12d6c45 := by decide


/-! ## String and byte helpers -/

/-- ASCII bytes of a string (every string handled by the library is ASCII). -/
def strBytes (s : String) : List Nat := s.data.map Char.toNat

/-- Whether the second character list is an initial segment of the first. -/
def listStartsWith : List Char → List Char → Bool
  | _, [] => true
  | [], _ :: _ => false
  | a :: as, b :: bs => a == b && listStartsWith as bs

/-- String begins-with test, evaluated on the character lists. -/
def strStarts (s p : String) : Bool := listStartsWith s.data p.data

/-- String ends-with test, evaluated on the reversed character lists. -/
def strEnds (s p : String) : Bool := listStartsWith s.data.reverse p.data.reverse

/-- Value of one hexadecimal digit character. -/
def hexDigitVal (c : Char) : Nat :=
  if 48 ≤ c.toNat && c.toNat ≤ 57 then c.toNat - 48
  else if 97 ≤ c.toNat && c.toNat ≤ 102 then c.toNat - 87
  else if 65 ≤ c.toNat && c.toNat ≤ 70 then c.toNat - 55
  else 0

/-- Bytes of a run of hexadecimal digit pairs. -/
def hexPairsToBytes : List Char → List Nat
  | c1 :: c2 :: rest => (16 * hexDigitVal c1 + hexDigitVal c2) :: hexPairsToBytes rest
  | _ => []

/-- Parse a hexadecimal string, with or without a leading `0x`. -/
def hexToBytes (s : String) : List Nat :=
  match s.data with
  | '0' :: 'x' :: rest => hexPairsToBytes rest
  | rest => hexPairsToBytes rest

/-- Big-endian 32-byte representation of a natural number below `2^256`. -/
def beBytes32 (n : Nat) : List Nat :=
  (List.range 32).map fun i => (n >>> (8 * (31 - i))) % 256

/-- Left-pad a byte list with zeros to 32 bytes. -/
def leftPad32 (bs : List Nat) : List Nat := List.replicate (32 - bs.length) 0 ++ bs

/-- Right-pad a byte list with zeros to 32 bytes. -/
def rightPad32 (bs : List Nat) : List Nat := bs ++ List.replicate (32 - bs.length) 0

/-! ## The EIP-712 hash engine

Modelled from the spec: the library delegates `hash_domain`,
`hash_eip712_message`, `encode_data` and `hash_type` to the external
`eth_account` package, whose source is not part of this repository; the
definitions below follow §4.5 of the specification (`encodeType`, `typeHash`,
`encodeData`, `structHash`, `domainSeparator`). -/

/-- One member of a struct type: field name and its declared type string. -/
structure FieldDef where
  name : String
  type : String
deriving DecidableEq

/-- A type graph: struct type name mapped to its ordered member list. -/
abbrev TypesMap := List (String × List FieldDef)

/-- Look up a struct type by name. -/
def lookupTy (types : TypesMap) (t : String) : Option (List FieldDef) :=
  (types.find? fun p => p.1 == t).map fun p => p.2

/-- Concrete message values: scalars, nested structs, and dynamic arrays. -/
inductive EValue where
  | str : String → EValue
  | bytes : List Nat → EValue
  | nat : Nat → EValue
  | bool : Bool → EValue
  | struct : List (String × EValue) → EValue
  | arr : List EValue → EValue

/-- Look up a field value by name. -/
def lookupVal (l : List (String × EValue)) (k : String) : Option EValue :=
  (l.find? fun p => p.1 == k).map fun p => p.2

/-- Base struct or elementary name of a type string (array suffixes dropped). -/
def baseTypeName (t : String) : String :=
  String.mk (t.data.takeWhile fun c => !(c == '['))

/-- Drop characters of a reversed type string until the matching `[`. -/
def dropToBracket : List Char → Option (List Char)
  | [] => none
  | '[' :: rest => some rest
  | _ :: rest => dropToBracket rest

/-- For an array type string `T[..]`, the element type `T`; otherwise `none`. -/
def stripArraySuffix (t : String) : Option String :=
  match t.data.reverse with
  | ']' :: rest => (dropToBracket rest).map fun rs => String.mk rs.reverse
  | _ => none

/-- Struct names directly referenced from the members of a struct type. -/
def directDeps (types : TypesMap) (t : String) : List String :=
  match lookupTy types t with
  | none => []
  | some mems => mems.map fun m => baseTypeName m.type

/-- Worklist collection of every struct type transitively referenced from the
initial worklist, in first-visit order. -/
def collectDeps (types : TypesMap) : Nat → List String → List String → List String
  | 0, visited, _ => visited
  | _ + 1, visited, [] => visited
  | n + 1, visited, t :: rest =>
      if visited.contains t then collectDeps types n visited rest
      else if (lookupTy types t).isSome then
        collectDeps types n (visited ++ [t]) (rest ++ directDeps types t)
      else collectDeps types n visited rest

/-- Fuel that certainly exceeds the number of worklist steps for `collectDeps`. -/
def depsFuel (types : TypesMap) : Nat :=
  2 + types.length + ((types.map fun p => p.2.length).sum * (1 + types.length))

/-- The `Type(type1 name1,...)` rendition of a single struct type. -/
def encodeTypeOne (types : TypesMap) (t : String) : String :=
  match lookupTy types t with
  | none => ""
  | some mems =>
      t ++ "(" ++ String.intercalate "," (mems.map fun m => m.type ++ " " ++ m.name) ++ ")"

/-- Insert a string into a lexicographically sorted list. -/
def insertStr (s : String) : List String → List String
  | [] => [s]
  | t :: ts => if s < t then s :: t :: ts else t :: insertStr s ts

/-- Lexicographic insertion sort for strings. -/
def sortStrs : List String → List String
  | [] => []
  | s :: ss => insertStr s (sortStrs ss)

/-- Full `encodeType`: the primary type first, then every other transitively
referenced struct type, deduplicated and sorted ascending by name. -/
def encodeType (types : TypesMap) (t : String) : String :=
  let deps := collectDeps types (depsFuel types) [] [baseTypeName t]
  let rest := sortStrs (deps.filter fun d => !(d == t))
  encodeTypeOne types t ++ String.join (rest.map (encodeTypeOne types))

/-- The `typeHash` of a struct type. -/
def typeHash (types : TypesMap) (t : String) : List Nat :=
  keccak256 (strBytes (encodeType types t))

/-- The single 32-byte word encoding an elementary (non-struct, non-array)
value: dynamic `bytes`/`string` are hashed, scalars are padded words. -/
def elementaryWord (t : String) (v : EValue) : Option (List Nat) :=
  if t == "bytes" then
    match v with | .bytes bs => some (keccak256 bs) | _ => none
  else if t == "string" then
    match v with | .str s => some (keccak256 (strBytes s)) | _ => none
  else if t == "bool" then
    match v with | .bool b => some (beBytes32 (cond b 1 0)) | _ => none
  else if t == "address" then
    match v with | .str s => some (leftPad32 (hexToBytes s)) | _ => none
  else if strStarts t "bytes" then
    match v with | .bytes bs => some (rightPad32 bs) | _ => none
  else if strStarts t "uint" || strStarts t "int" then
    match v with | .nat n => some (beBytes32 (n % 2 ^ 256)) | _ => none
  else none

/-- The 32-byte word for one member value: a nested struct contributes its
`structHash`, an array the hash of its concatenated element words, and an
elementary value its ABI word.  The fuel bounds the struct nesting depth. -/
def encodeFieldW (types : TypesMap) : Nat → String → EValue → Option (List Nat)
  | 0, _, _ => none
  | fuel + 1, t, v =>
    match lookupTy types t with
    | some mems =>
      match v with
      | .struct fields =>
          (mems.mapM fun m => (lookupVal fields m.name).bind (encodeFieldW types fuel m.type)).map
            fun ws => keccak256 (typeHash types t ++ ws.flatten)
      | _ => none
    | none =>
      match stripArraySuffix t with
      | some inner =>
          match v with
          | .arr elems =>
              (elems.mapM (encodeFieldW types fuel inner)).map fun ws => keccak256 ws.flatten
          | _ => none
      | none => elementaryWord t v

/-- The `encodeData` of a struct: its `typeHash` followed by one 32-byte word
per member, in declared member order. -/
def encodeData (types : TypesMap) (fuel : Nat) (t : String) (fields : List (String × EValue)) :
    Option (List Nat) :=
  match lookupTy types t with
  | some mems =>
      (mems.mapM fun m => (lookupVal fields m.name).bind (encodeFieldW types fuel m.type)).map
        fun ws => typeHash types t ++ ws.flatten
  | none => none

/-- The `structHash` of a struct: keccak256 of its `encodeData`. -/
def hashStruct (types : TypesMap) (fuel : Nat) (t : String) (fields : List (String × EValue)) :
    Option (List Nat) :=
  (encodeData types fuel t fields).map keccak256

/-- The five well-known domain header fields, in canonical order.  The order of
this list is significant: it is the encoding order of the domain struct. -/
def EIP712_DOMAIN_FIELDS : List FieldDef :=
  [⟨"name", "string"⟩, ⟨"version", "string"⟩, ⟨"chainId", "uint256"⟩,
   ⟨"verifyingContract", "address"⟩, ⟨"salt", "bytes32"⟩]

/-- The domain separator: the `structHash` of the `EIP712Domain` struct built
from exactly the supplied domain entries, in canonical order. -/
def hashDomain (data : List (String × EValue)) : Option (List Nat) :=
  let defs := EIP712_DOMAIN_FIELDS.filter fun fd => (lookupVal data fd.name).isSome
  hashStruct [("EIP712Domain", defs)] 8 "EIP712Domain" data

/-- The primary type of a type graph: the unique struct type that no other
struct type references. -/
def getPrimaryType (types : TypesMap) : Option String :=
  let refs := (types.map fun p => p.2.map fun m => baseTypeName m.type).flatten
  match types.filter fun p => !(refs.contains p.1) with
  | [p] => some p.1
  | _ => none

/-- The message hash: the `structHash` of the primary type over the message
values. -/
def hashEip712Message (types : TypesMap) (fuel : Nat) (message : List (String × EValue)) :
    Option (List Nat) :=
  (getPrimaryType types).bind fun pt => hashStruct types fuel pt message

/-! Validation of the engine against the specification's second concrete
vector (the `MainType` message, §8), whose final digest is also asserted by
the repository's own test suite. -/

/-- Type graph of the spec's `MainType` vector. -/
def mainTypesVec : TypesMap :=
  [("MainType", [⟨"name", "string"⟩, ⟨"age", "uint256"⟩, ⟨"nested", "NestedType[]"⟩]),
   ("NestedType", [⟨"field1", "string"⟩, ⟨"field2", "uint256"⟩])]

/-- Message values of the spec's `MainType` vector. -/
def mainMsgVec : List (String × EValue) :=
  [("name", .str "Alice"), ("age", .nat 30),
   ("nested", .arr [.struct [("field1", .str "nested1"), ("field2", .nat 100)],
                    .struct [("field1", .str "nested2"), ("field2", .nat 200)]])]

/-- Domain values of the spec's `MainType` vector. -/
def mainDomainVec : List (String × EValue) :=
  [("name", .str "MainType"), ("version", .str "1")]

example :
    ((hashDomain mainDomainVec).bind fun hd =>
      (hashEip712Message mainTypesVec 8 mainMsgVec).map fun hm =>
        beNat (keccak256 (0x19 :: 0x01 :: (hd ++ hm)))) =
    some 0x2cf8ef0524314a5c218e235d774fb448453b619c124c3bcd66e4b2806291544d := by decide

/-! ## The library's message model (eip712/messages.py) -/

/-- Header attribute values of an `EIP712Message` instance (`eip712_name_`,
`eip712_version_`, `eip712_chainId_`, `eip712_verifyingContract_`,
`eip712_salt_`): `none` models Python `None`. -/
structure DomainValues where
  name : Option String
  version : Option String
  chainId : Option Nat
  verifyingContract : Option String
  salt : Option (List Nat)
deriving DecidableEq

/-- Python truthiness of an optional string attribute. -/
def truthyStr : Option String → Bool
  | none => false
  | some s => !(s == "")

/-- Python truthiness of an optional integer attribute. -/
def truthyNat : Option Nat → Bool
  | none => false
  | some n => !(n == 0)

/-- Python truthiness of an optional byte-string attribute. -/
def truthyBytes : Option (List Nat) → Bool
  | none => false
  | some bs => !(bs == [])

/-- Truthiness of the header attribute for the given canonical field name
(the `if getattr(self, f"eip712_{field}_")` test of `_domain_`). -/
def domainTruthy (d : DomainValues) : String → Bool
  | "name" => truthyStr d.name
  | "version" => truthyStr d.version
  | "chainId" => truthyNat d.chainId
  | "verifyingContract" => truthyStr d.verifyingContract
  | "salt" => truthyBytes d.salt
  | _ => false

/-- The `EIP712Domain` member list emitted by `_domain_`: the canonical five
fields filtered to the header attributes with truthy values. -/
def domainTypeOf (d : DomainValues) : List FieldDef :=
  EIP712_DOMAIN_FIELDS.filter fun fd => domainTruthy d fd.name

/-- The header attribute value, as a message value, when present. -/
def domainValueOf (d : DomainValues) : String → Option EValue
  | "name" => d.name.map .str
  | "version" => d.version.map .str
  | "chainId" => d.chainId.map .nat
  | "verifyingContract" => d.verifyingContract.map .str
  | "salt" => d.salt.map .bytes
  | _ => none

/-- The `domain` value map emitted by `_domain_`, keyed in emitted order. -/
def domainDataOf (d : DomainValues) : List (String × EValue) :=
  (domainTypeOf d).filterMap fun fd => (domainValueOf d fd.name).map fun v => (fd.name, v)

/-- Model of an `EIP712Message` instance: its class name, its header
attributes, the type graph of its schema, and the pydantic model fields with
their values (header fields under their `eip712_..._` names). -/
structure MsgModel where
  clsName : String
  domain : DomainValues
  typesGraph : TypesMap
  modelFields : List (String × EValue)

/-- The `message` component of `_body_`: every model field except the
`eip712_*_` header fields. -/
def messageMap (m : MsgModel) : List (String × EValue) :=
  m.modelFields.filter fun p => !(strStarts p.1 "eip712_" && strEnds p.1 "_")

/-- Python single-key `dict` update: replace the value in place when the key
exists, otherwise append the pair at the end. -/
def updateOne (d : List (String × α)) (kv : String × α) : List (String × α) :=
  if d.any fun p => p.1 == kv.1 then
    d.map fun p => if p.1 == kv.1 then (p.1, kv.2) else p
  else d ++ [kv]

/-- Python `dict(a, **b)` / `dict.update`: apply updates left to right. -/
def dictUpdate (d upd : List (String × α)) : List (String × α) :=
  upd.foldl updateOne d

/-- The `types` component of `_body_`:
`dict(self._types_, **self._domain_["types"])`. -/
def bodyTypesOf (m : MsgModel) : TypesMap :=
  dictUpdate m.typesGraph [("EIP712Domain", domainTypeOf m.domain)]

/-- The canonical four-key body produced by `_body_`. -/
structure CanonicalBody where
  domain : List (String × EValue)
  types : TypesMap
  primaryType : String
  message : List (String × EValue)

/-- The `_body_` property. -/
def bodyOf (m : MsgModel) : CanonicalBody :=
  { domain := domainDataOf m.domain
    types := bodyTypesOf m
    primaryType := m.clsName
    message := messageMap m }

/-- The `_domain_separator_` property. -/
def domainSeparatorOf (m : MsgModel) : Option (List Nat) :=
  hashDomain (domainDataOf m.domain)

/-- The `_struct_hash_` property. -/
def structHashOf (m : MsgModel) (fuel : Nat) : Option (List Nat) :=
  hashEip712Message m.typesGraph fuel (messageMap m)

/-- The `signable_message` property: version byte `0x01`, hashed domain, and
hashed message (`none` models a raised exception). -/
def signableMessageOf (m : MsgModel) (fuel : Nat) :
    Option (List Nat × List Nat × List Nat) :=
  match hashDomain (domainDataOf m.domain),
        hashEip712Message m.typesGraph fuel (messageMap m) with
  | some hd, some hm => some ([0x01], hd, hm)
  | _, _ => none

/-- `calculate_hash`: keccak256 of the fixed `0x19` byte followed by the three
joined components of the signable message. -/
def calculateHash (t : List Nat × List Nat × List Nat) : List Nat :=
  keccak256 (0x19 :: (t.1 ++ t.2.1 ++ t.2.2))

/-- The `_message_hash_` property: `calculate_hash(self.signable_message)`. -/
def messageHashOf (m : MsgModel) (fuel : Nat) : Option (List Nat) :=
  (signableMessageOf m fuel).map calculateHash

/-! ## C1: the final signable hash -/

/-- C1: for every message whose domain separator and struct hash are defined,
the final signable hash is keccak256 of the four-part concatenation of the
fixed `0x19` signed-data prefix byte, the fixed `0x01` structured-data version
byte, the 32-byte domain separator, and the 32-byte struct hash of the primary
type over the message values. -/
theorem message_hash_four_part_concat (m : MsgModel) (fuel : Nat) (hd hb : List Nat)
    (h1 : domainSeparatorOf m = some hd) (h2 : structHashOf m fuel = some hb) :
    messageHashOf m fuel = some (keccak256 (0x19 :: 0x01 :: (hd ++ hb))) := by
  unfold domainSeparatorOf at h1
  unfold structHashOf at h2
  simp [messageHashOf, signableMessageOf, h1, h2, calculateHash]

/-- Message model for the specification's `MainType` vector. -/
def mainMsgModel : MsgModel :=
  { clsName := "MainType"
    domain := { name := some "MainType", version := some "1", chainId := none,
                verifyingContract := none, salt := none }
    typesGraph := mainTypesVec
    modelFields := mainMsgVec }

/-- Witness for C1 at the concrete `MainType` message. -/
theorem message_hash_four_part_concat_witness :
    messageHashOf mainMsgModel 8 =
      some (keccak256 (0x19 :: 0x01 ::
        (beBytes32 0x0b2559348f55bf512d3cbed07914b9042c10f07034f553a05e0259103cca9156 ++
         beBytes32 0x0802629e7fba836d4ab3791efd660448d4a23371201ed299e3ffd9bdd6adffaf))) :=
  message_hash_four_part_concat mainMsgModel 8 _ _ (by decide) (by decide)

/-! ## C2: the Permit concrete vector -/

/-- Type graph of the claimed Permit schema. -/
def permitTypes : TypesMap :=
  [("Permit", [⟨"owner", "address"⟩, ⟨"spender", "address"⟩, ⟨"value", "uint256"⟩,
               ⟨"nonce", "uint256"⟩, ⟨"deadline", "uint256"⟩])]

/-- Header attributes of the claimed Permit domain. -/
def permitDomain : DomainValues :=
  { name := some "Yearn Vault", version := some "0.3.5", chainId := some 1,
    verifyingContract := some "0x1596Ff8ED308a83897a731F3C1e814B19E11D68c", salt := none }

/-- The claimed Permit message instance. -/
def permitModel : MsgModel :=
  { clsName := "Permit"
    domain := permitDomain
    typesGraph := permitTypes
    modelFields :=
      [("owner", .str "0xf5a2f086cCB7eec82d10bc3600932E9f78d0B212"),
       ("spender", .str "0x1CEE82EEd89Bd5Be5bf2507a92a755dcF1D8e8dc"),
       ("value", .nat 100), ("nonce", .nat 0), ("deadline", .nat 1619151069)] }

/-- C2 counterexample: on the Permit input of the claim, the computed domain
separator is not the claimed `0x336a...` value (that value, and the claimed
struct hash, belong to the repository's other test message,
`ValidMessageWithNameDomainField` with domain name `Valid Test Message`). -/
theorem permit_vector_cex :
    ¬ (domainSeparatorOf permitModel =
         some (beBytes32 0x336a9d2b32d1ab7ea7bbbd2565eca1910e54b74843858dec7a81f772a3c17e17) ∧
       structHashOf permitModel 8 =
         some (beBytes32 0x306af87567fa87e55d2bd925d9a3ed2b1ec2c3e71b142785c053dc60b6ca177b)) :=
  fun h => absurd h.1 (by decide)

/-- C2 amended: on the Permit input of the claim, the computed domain
separator and struct hash are `0x922f77...` and `0x617264...`. -/
theorem permit_vector_amended :
    domainSeparatorOf permitModel =
      some (beBytes32 0x922f772b055542bd7aca3e242fd6fafd9dc9a8c0b3b70972ec279e4ffaaff9f7) ∧
    structHashOf permitModel 8 =
      some (beBytes32 0x617264ec42bf49cb74ca895b66ac2fb06e7df5ee2670d6919ceb2f742414c11c) :=
  ⟨by decide, by decide⟩

/-! ## C4: domain order invariance; C9: falsy header values -/

/-- A keyword-argument value for a domain header field. -/
inductive DVal where
  | str : String → DVal
  | nat : Nat → DVal
  | bytes : List Nat → DVal
deriving DecidableEq

/-- Look up a keyword argument by name (first match). -/
def lookupKw (l : List (String × DVal)) (k : String) : Option DVal :=
  (l.find? fun p => p.1 == k).map fun p => p.2

/-- Coerce a keyword value to a string attribute. -/
def asStr : DVal → Option String
  | .str s => some s
  | _ => none

/-- Coerce a keyword value to an integer attribute. -/
def asNat : DVal → Option Nat
  | .nat n => some n
  | _ => none

/-- Coerce a keyword value to a byte-string attribute. -/
def asBytes : DVal → Option (List Nat)
  | .bytes b => some b
  | _ => none

/-- Build the header attributes from supplied keyword arguments, as
`create_permit_def` does: each header attribute is set from its keyword when
present, so the attribute record cannot depend on supply order. -/
def buildDomain (l : List (String × DVal)) : DomainValues :=
  { name := (lookupKw l "name").bind asStr
    version := (lookupKw l "version").bind asStr
    chainId := (lookupKw l "chainId").bind asNat
    verifyingContract := (lookupKw l "verifyingContract").bind asStr
    salt := (lookupKw l "salt").bind asBytes }

lemma lookupKw_cons (x : String × DVal) (l : List (String × DVal)) (k : String) :
    lookupKw (x :: l) k = if x.1 == k then some x.2 else lookupKw l k := by
  rcases h : x.1 == k <;> simp [lookupKw, List.find?, h]

lemma lookupKw_perm {l₁ l₂ : List (String × DVal)} (hp : l₁.Perm l₂) :
    (l₁.map Prod.fst).Nodup → ∀ k, lookupKw l₁ k = lookupKw l₂ k := by
  induction hp with
  | nil => intro _ _; rfl
  | cons x _ ih =>
      intro hn k
      rw [List.map_cons] at hn
      rw [lookupKw_cons, lookupKw_cons, ih (List.nodup_cons.mp hn).2 k]
  | swap x y l =>
      intro hn k
      rw [List.map_cons, List.map_cons] at hn
      rw [lookupKw_cons, lookupKw_cons, lookupKw_cons, lookupKw_cons]
      by_cases hx : x.1 == k <;> by_cases hy : y.1 == k <;> simp [hx, hy]
      exfalso
      have hyx : y.1 = x.1 := (eq_of_beq hy).trans (eq_of_beq hx).symm
      have hmem : y.1 ∉ x.1 :: l.map Prod.fst := (List.nodup_cons.mp hn).1
      exact hmem (hyx ▸ List.mem_cons_self _ _)
  | trans h₁ _ ih₁ ih₂ =>
      intro hn k
      rw [ih₁ hn k, ih₂ (((h₁.map Prod.fst).nodup_iff).mp hn) k]

/-- C4: for keyword-argument lists that are permutations of each other (with
distinct keys), the resolved header attributes, the emitted ordered field
list, the emitted value map and the domain separator are identical; the
emitted list is an in-order sublist of the fixed canonical field order and
contains exactly the fields resolved to truthy values. -/
theorem domain_order_invariance (l₁ l₂ : List (String × DVal)) (hp : l₁.Perm l₂)
    (hn : (l₁.map Prod.fst).Nodup) :
    buildDomain l₁ = buildDomain l₂ ∧
    domainTypeOf (buildDomain l₁) = domainTypeOf (buildDomain l₂) ∧
    domainDataOf (buildDomain l₁) = domainDataOf (buildDomain l₂) ∧
    hashDomain (domainDataOf (buildDomain l₁)) = hashDomain (domainDataOf (buildDomain l₂)) ∧
    (domainTypeOf (buildDomain l₁)).Sublist EIP712_DOMAIN_FIELDS ∧
    ∀ fd ∈ EIP712_DOMAIN_FIELDS,
      (fd ∈ domainTypeOf (buildDomain l₁) ↔ domainTruthy (buildDomain l₁) fd.name = true) := by
  have hb : buildDomain l₁ = buildDomain l₂ := by
    simp [buildDomain, lookupKw_perm hp hn]
  refine ⟨hb, by rw [hb], by rw [hb], by rw [hb], List.filter_sublist _, ?_⟩
  intro fd hfd
  constructor
  · intro hmem
    exact (List.mem_filter.mp hmem).2
  · intro htr
    exact List.mem_filter.mpr ⟨hfd, htr⟩

/-- First keyword order for the C4 witness. -/
def kwA : List (String × DVal) :=
  [("verifyingContract", .str "0x1596Ff8ED308a83897a731F3C1e814B19E11D68c"),
   ("name", .str "Yearn Vault"), ("chainId", .nat 1)]

/-- Second keyword order for the C4 witness. -/
def kwB : List (String × DVal) :=
  [("chainId", .nat 1), ("name", .str "Yearn Vault"),
   ("verifyingContract", .str "0x1596Ff8ED308a83897a731F3C1e814B19E11D68c")]

/-- Witness for C4 at two concrete supply orders of the same domain fields. -/
theorem domain_order_invariance_witness :
    buildDomain kwA = buildDomain kwB ∧
    domainDataOf (buildDomain kwA) = domainDataOf (buildDomain kwB) ∧
    (domainTypeOf (buildDomain kwA)).Sublist EIP712_DOMAIN_FIELDS :=
  ⟨(domain_order_invariance kwA kwB (by decide) (by decide)).1,
   (domain_order_invariance kwA kwB (by decide) (by decide)).2.2.1,
   (domain_order_invariance kwA kwB (by decide) (by decide)).2.2.2.2.1⟩

/-- Replace every falsy header attribute value by `none`. -/
def normalizeDomain (d : DomainValues) : DomainValues :=
  { name := if truthyStr d.name then d.name else none
    version := if truthyStr d.version then d.version else none
    chainId := if truthyNat d.chainId then d.chainId else none
    verifyingContract := if truthyStr d.verifyingContract then d.verifyingContract else none
    salt := if truthyBytes d.salt then d.salt else none }

lemma truthyStr_norm (o : Option String) :
    truthyStr (if truthyStr o then o else none) = truthyStr o := by
  cases h : truthyStr o
  · simp [h, truthyStr]
  · simp [h]

lemma truthyNat_norm (o : Option Nat) :
    truthyNat (if truthyNat o then o else none) = truthyNat o := by
  cases h : truthyNat o
  · simp [h, truthyNat]
  · simp [h]

lemma truthyBytes_norm (o : Option (List Nat)) :
    truthyBytes (if truthyBytes o then o else none) = truthyBytes o := by
  cases h : truthyBytes o
  · simp [h, truthyBytes]
  · simp [h]

lemma filterCongrMem {l : List α} {p q : α → Bool} (h : ∀ a ∈ l, p a = q a) :
    l.filter p = l.filter q := by
  induction l with
  | nil => rfl
  | cons a t ih =>
      simp only [List.filter_cons, h a (List.mem_cons_self a t)]
      rw [ih fun x hx => h x (List.mem_cons_of_mem a hx)]

lemma filterMapCongrMem {l : List α} {f g : α → Option β} (h : ∀ a ∈ l, f a = g a) :
    l.filterMap f = l.filterMap g := by
  induction l with
  | nil => rfl
  | cons a t ih =>
      simp only [List.filterMap_cons, h a (List.mem_cons_self a t)]
      rw [ih fun x hx => h x (List.mem_cons_of_mem a hx)]

lemma domainTruthy_norm (d : DomainValues) :
    ∀ fd ∈ EIP712_DOMAIN_FIELDS,
      domainTruthy (normalizeDomain d) fd.name = domainTruthy d fd.name := by
  intro fd hfd
  fin_cases hfd <;>
    simp [domainTruthy, normalizeDomain, truthyStr_norm, truthyNat_norm, truthyBytes_norm]

/-- C9: a header attribute holding a falsy value (empty string, zero integer,
empty byte string) is omitted from the emitted `EIP712Domain` field list and
from the domain value map exactly as if it were `None`, and every emitted
field has a truthy value. -/
theorem falsy_header_fields_omitted (d : DomainValues) :
    domainTypeOf d = domainTypeOf (normalizeDomain d) ∧
    domainDataOf d = domainDataOf (normalizeDomain d) ∧
    ∀ fd ∈ domainTypeOf d, domainTruthy d fd.name = true := by
  have htype : domainTypeOf d = domainTypeOf (normalizeDomain d) := by
    unfold domainTypeOf
    exact filterCongrMem fun fd hfd => (domainTruthy_norm d fd hfd).symm
  refine ⟨htype, ?_, fun fd hfd => (List.mem_filter.mp hfd).2⟩
  unfold domainDataOf
  rw [← htype]
  apply filterMapCongrMem
  intro fd hfd
  have htr : domainTruthy d fd.name = true := (List.mem_filter.mp hfd).2
  have hmem : fd ∈ EIP712_DOMAIN_FIELDS := (List.mem_filter.mp hfd).1
  fin_cases hmem <;>
    simp only [domainTruthy] at htr <;>
    simp [domainValueOf, normalizeDomain, htr]

/-- Concrete header attributes for the C9 witness: an empty name, a zero
chain id, and a truthy verifying contract. -/
def falsyDomainExample : DomainValues :=
  { name := some "", version := none, chainId := some 0,
    verifyingContract := some "0x1596Ff8ED308a83897a731F3C1e814B19E11D68c", salt := none }

/-- Witness for C9 at the concrete header attributes above. -/
theorem falsy_header_fields_omitted_witness :
    domainTypeOf falsyDomainExample = domainTypeOf (normalizeDomain falsyDomainExample) ∧
    domainTruthy falsyDomainExample "verifyingContract" = true :=
  ⟨(falsy_header_fields_omitted falsyDomainExample).1,
   (falsy_header_fields_omitted falsyDomainExample).2.2
     ⟨"verifyingContract", "address"⟩ (by decide)⟩

/-! ## C6: missing domain fields fail fast -/

/-- The single schema-error kind raised by `validate_model`. -/
inductive SchemaErr where
  | schemaError
deriving DecidableEq

/-- The annotation name of the header attribute for a domain field. -/
def headerAttrName (f : String) : String := "eip712_" ++ f ++ "_"

/-- `validate_model`: at least one of the five `eip712_*_` header attributes
must appear among the message class's declared annotation names. -/
def validateModel (declared : List String) : Except SchemaErr Unit :=
  if EIP712_DOMAIN_FIELDS.any fun fd => declared.contains (headerAttrName fd.name) then .ok ()
  else .error .schemaError

/-- Instrumented model construction: pydantic construction runs the model
validator and nothing else; the second component counts the keccak256
invocations performed, and the construction path contains none (hashing only
happens later, in the `_domain_separator_` / `_struct_hash_` /
`signable_message` properties). -/
def constructMessage (declared : List String) (m : MsgModel) :
    Except SchemaErr MsgModel × Nat :=
  (validateModel declared |>.map fun _ => m, 0)

/-- C6: constructing a message whose definition declares none of the five
domain header attributes fails with the schema error, and no keccak256
invocation happens before that failure. -/
theorem missing_domain_fields_fail_fast (declared : List String) (m : MsgModel)
    (h : (EIP712_DOMAIN_FIELDS.any fun fd => declared.contains (headerAttrName fd.name)) = false) :
    constructMessage declared m = (.error .schemaError, 0) := by
  unfold constructMessage validateModel
  rw [if_neg (by rw [h]; simp)]
  rfl

/-- Witness for C6: a message class declaring only a `value` field. -/
theorem missing_domain_fields_fail_fast_witness :
    (EIP712_DOMAIN_FIELDS.any fun fd => (["value"].contains (headerAttrName fd.name))) = false ∧
    constructMessage ["value"] mainMsgModel = (.error .schemaError, 0) :=
  ⟨by decide, missing_domain_fields_fail_fast ["value"] mainMsgModel (by decide)⟩

/-! ## C7: the canonical body's types mapping -/

lemma lookupTy_cons (x : String × List FieldDef) (l : TypesMap) (k : String) :
    lookupTy (x :: l) k = if x.1 == k then some x.2 else lookupTy l k := by
  rcases h : x.1 == k <;> simp [lookupTy, List.find?, h]

lemma lookupTy_map_replace (k : String) (v : List FieldDef) :
    ∀ d : TypesMap,
      lookupTy (d.map fun p => if p.1 == k then (p.1, v) else p) k =
        (lookupTy d k).map fun _ => v := by
  intro d
  induction d with
  | nil => rfl
  | cons a t ih =>
      rcases ha : a.1 == k
      · rw [List.map_cons, show (if (a.1 == k) = true then (a.1, v) else a) = a by simp [ha],
            lookupTy_cons, lookupTy_cons, ih]
        rw [if_neg (by simp [ha]), if_neg (by simp [ha])]
      · rw [List.map_cons, show (if (a.1 == k) = true then (a.1, v) else a) = (a.1, v) by
              simp [ha],
            lookupTy_cons, lookupTy_cons]
        rw [if_pos (by simp [ha]), if_pos (by simp [ha])]
        rfl

lemma lookupTy_map_replace_other (k k' : String) (v : List FieldDef) (hne : k' ≠ k) :
    ∀ d : TypesMap,
      lookupTy (d.map fun p => if p.1 == k then (p.1, v) else p) k' = lookupTy d k' := by
  intro d
  induction d with
  | nil => rfl
  | cons a t ih =>
      rcases ha : a.1 == k
      · rw [List.map_cons, show (if (a.1 == k) = true then (a.1, v) else a) = a by simp [ha],
            lookupTy_cons, lookupTy_cons, ih]
      · rw [List.map_cons, show (if (a.1 == k) = true then (a.1, v) else a) = (a.1, v) by
              simp [ha],
            lookupTy_cons, lookupTy_cons, ih]
        have hk : (a.1 == k') = false := by
          rcases hc : a.1 == k' with _ | _
          · rfl
          · exact absurd ((eq_of_beq hc).symm.trans (eq_of_beq ha)) hne
        rw [if_neg (by simp [hk]), if_neg (by simp [hk])]

lemma lookupTy_any (d : TypesMap) (k : String) :
    (d.any fun p => p.1 == k) = true ↔ lookupTy d k ≠ none := by
  induction d with
  | nil => simp [lookupTy]
  | cons a t ih =>
      rw [List.any_cons, lookupTy_cons]
      rcases ha : a.1 == k <;> simp [ha, ih]

lemma lookupTy_append_single (d : TypesMap) (k k' : String) (v : List FieldDef) :
    lookupTy (d ++ [(k, v)]) k' =
      match lookupTy d k' with
      | some w => some w
      | none => if k == k' then some v else none := by
  induction d with
  | nil => rw [List.nil_append, lookupTy_cons]; rcases h : k == k' <;> simp [h, lookupTy]
  | cons a t ih =>
      rw [List.cons_append, lookupTy_cons, lookupTy_cons]
      rcases ha : a.1 == k' <;> simp [ha, ih]

lemma lookupTy_updateOne_self (d : TypesMap) (k : String) (v : List FieldDef) :
    lookupTy (updateOne d (k, v)) k = some v := by
  unfold updateOne
  by_cases h : (d.any fun p => p.1 == k) = true
  · rw [if_pos h, lookupTy_map_replace]
    rcases hl : lookupTy d k with _ | w
    · exact absurd hl ((lookupTy_any d k).mp h)
    · rfl
  · rw [if_neg h, lookupTy_append_single]
    have hnone : lookupTy d k = none := by
      by_contra hne
      exact h ((lookupTy_any d k).mpr hne)
    rw [hnone]
    simp

lemma lookupTy_updateOne_other (d : TypesMap) (k k' : String) (v : List FieldDef)
    (hne : k' ≠ k) :
    lookupTy (updateOne d (k, v)) k' = lookupTy d k' := by
  unfold updateOne
  by_cases h : (d.any fun p => p.1 == k) = true
  · rw [if_pos h, lookupTy_map_replace_other k k' v hne]
  · rw [if_neg h, lookupTy_append_single]
    have hkk : (k == k') = false := by
      rcases hc : k == k' with _ | _
      · rfl
      · exact absurd (eq_of_beq hc).symm hne
    rcases hl : lookupTy d k' with _ | w <;> simp [hkk]

/-- C7 counterexample: for a message class named `EIP712Domain` itself, the
domain entry overwrites the type graph's entry for the primary type, so
`types[primaryType]` is not the graph's member list. -/
def domainNameCollision : MsgModel :=
  { clsName := "EIP712Domain"
    domain := { name := some "x", version := none, chainId := none,
                verifyingContract := none, salt := none }
    typesGraph := [("EIP712Domain", [⟨"value", "uint256"⟩])]
    modelFields := [("value", .nat 7)] }

/-- C7 counterexample theorem: on the collision instance the type graph binds
the primary type to its member list, yet the body's types mapping does not. -/
theorem body_types_roundtrip_cex :
    lookupTy domainNameCollision.typesGraph domainNameCollision.clsName =
      some [⟨"value", "uint256"⟩] ∧
    lookupTy (bodyTypesOf domainNameCollision) (bodyOf domainNameCollision).primaryType ≠
      some [⟨"value", "uint256"⟩] :=
  ⟨by decide, by decide⟩

/-- C7 amended: for every message whose primary type name is not
`EIP712Domain`, the body's types mapping binds `EIP712Domain` to the resolved
domain field definitions and the primary type name to the type graph's member
list, and the body's `primaryType` is the class name. -/
theorem body_types_roundtrip (m : MsgModel) (mems : List FieldDef)
    (hname : m.clsName ≠ "EIP712Domain")
    (hmem : lookupTy m.typesGraph m.clsName = some mems) :
    lookupTy (bodyTypesOf m) "EIP712Domain" = some (domainTypeOf m.domain) ∧
    lookupTy (bodyTypesOf m) ((bodyOf m).primaryType) = some mems ∧
    (bodyOf m).primaryType = m.clsName := by
  refine ⟨lookupTy_updateOne_self _ _ _, ?_, rfl⟩
  show lookupTy (updateOne m.typesGraph ("EIP712Domain", domainTypeOf m.domain)) m.clsName =
    some mems
  rw [lookupTy_updateOne_other _ _ _ _ hname]
  exact hmem

/-- Witness for the amended C7 at the concrete Permit message. -/
theorem body_types_roundtrip_witness :
    lookupTy (bodyTypesOf permitModel) "EIP712Domain" =
      some (domainTypeOf permitModel.domain) ∧
    lookupTy (bodyTypesOf permitModel) ((bodyOf permitModel).primaryType) =
      some [⟨"owner", "address"⟩, ⟨"spender", "address"⟩, ⟨"value", "uint256"⟩,
            ⟨"nonce", "uint256"⟩, ⟨"deadline", "uint256"⟩] ∧
    (bodyOf permitModel).primaryType = permitModel.clsName :=
  body_types_roundtrip permitModel _ (by decide) (by decide)

/-! ## C10: `__getitem__` -/

/-- The single key-error kind raised by `__getitem__`. -/
inductive KeyErr where
  | keyError
deriving DecidableEq

/-- Result of indexing a message: one of the four body components, or a model
field's value. -/
inductive ItemRes where
  | bodyTypes : TypesMap → ItemRes
  | bodyPrimary : String → ItemRes
  | bodyDomain : List (String × EValue) → ItemRes
  | bodyMessage : List (String × EValue) → ItemRes
  | fieldValue : EValue → ItemRes

/-- The four body keys, in the order of `EIP712_BODY_FIELDS`. -/
def EIP712_BODY_FIELDS : List String := ["types", "primaryType", "domain", "message"]

/-- `EIP712Message.__getitem__`: body keys are answered from `_body_`; a key
matching the `eip712_*_` header pattern or absent from the model fields raises
`KeyError`; any other declared field returns its value. -/
def getItem (m : MsgModel) (key : String) : Except KeyErr ItemRes :=
  if key == "types" then .ok (.bodyTypes (bodyTypesOf m))
  else if key == "primaryType" then .ok (.bodyPrimary m.clsName)
  else if key == "domain" then .ok (.bodyDomain (domainDataOf m.domain))
  else if key == "message" then .ok (.bodyMessage (messageMap m))
  else if (strStarts key "eip712_" && strEnds key "_") ||
      !(m.modelFields.any fun p => p.1 == key) then .error .keyError
  else
    match lookupVal m.modelFields key with
    | some v => .ok (.fieldValue v)
    | none => .error .keyError

lemma lookupVal_any {l : List (String × EValue)} {k : String} {v : EValue}
    (h : lookupVal l k = some v) : (l.any fun p => p.1 == k) = true := by
  induction l with
  | nil => simp [lookupVal, List.find?] at h
  | cons a t ih =>
      rw [List.any_cons]
      rcases ha : a.1 == k
      · have ht : lookupVal t k = some v := by
          simpa [lookupVal, List.find?, ha] using h
        simp [ha, ih ht]
      · simp [ha]

/-- C10 amended: indexing with one of the four body keys returns that body
component; for any other key, a key matching the `eip712_*_` header pattern or
not declared as a model field raises `KeyError`, and a declared field not
matching the pattern returns its value. -/
theorem getitem_semantics (m : MsgModel) (key : String) :
    (getItem m "types" = .ok (.bodyTypes (bodyTypesOf m)) ∧
     getItem m "primaryType" = .ok (.bodyPrimary m.clsName) ∧
     getItem m "domain" = .ok (.bodyDomain (domainDataOf m.domain)) ∧
     getItem m "message" = .ok (.bodyMessage (messageMap m))) ∧
    ((strStarts key "eip712_" && strEnds key "_") = true → getItem m key = .error .keyError) ∧
    (key ∉ EIP712_BODY_FIELDS → (m.modelFields.any fun p => p.1 == key) = false →
      getItem m key = .error .keyError) ∧
    (∀ v, key ∉ EIP712_BODY_FIELDS → (strStarts key "eip712_" && strEnds key "_") = false →
      lookupVal m.modelFields key = some v → getItem m key = .ok (.fieldValue v)) := by
  refine ⟨⟨rfl, rfl, rfl, rfl⟩, ?_, ?_, ?_⟩
  · intro h
    have h1 : key ≠ "types" := by rintro rfl; exact absurd h (by decide)
    have h2 : key ≠ "primaryType" := by rintro rfl; exact absurd h (by decide)
    have h3 : key ≠ "domain" := by rintro rfl; exact absurd h (by decide)
    have h4 : key ≠ "message" := by rintro rfl; exact absurd h (by decide)
    unfold getItem
    rw [if_neg (by simp [h1]), if_neg (by simp [h2]), if_neg (by simp [h3]),
        if_neg (by simp [h4]), if_pos (by rw [h]; simp)]
  · intro hk hany
    simp only [EIP712_BODY_FIELDS, List.mem_cons, List.not_mem_nil, or_false, not_or] at hk
    obtain ⟨h1, h2, h3, h4⟩ := hk
    unfold getItem
    rw [if_neg (by simp [h1]), if_neg (by simp [h2]), if_neg (by simp [h3]),
        if_neg (by simp [h4]), if_pos (by rw [hany]; simp)]
  · intro v hk hpat hv
    simp only [EIP712_BODY_FIELDS, List.mem_cons, List.not_mem_nil, or_false, not_or] at hk
    obtain ⟨h1, h2, h3, h4⟩ := hk
    unfold getItem
    rw [if_neg (by simp [h1]), if_neg (by simp [h2]), if_neg (by simp [h3]),
        if_neg (by simp [h4]), if_neg (by rw [hpat, lookupVal_any hv]; simp), hv]

/-- C10 counterexample input: a message declaring a model field named
`types`. -/
def bodyKeyCollision : MsgModel :=
  { clsName := "M"
    domain := { name := some "x", version := none, chainId := none,
                verifyingContract := none, salt := none }
    typesGraph := [("M", [⟨"types", "uint256"⟩])]
    modelFields := [("types", .nat 7)] }

/-- Whether an indexing result is a model field value. -/
def isFieldValueRes : Except KeyErr ItemRes → Bool
  | .ok (.fieldValue _) => true
  | _ => false

/-- C10 counterexample: `types` is a declared non-header model field of the
instance, yet indexing with it does not return the field's value (the body
component shadows it). -/
theorem getitem_semantics_cex :
    (bodyKeyCollision.modelFields.any fun p => p.1 == "types") = true ∧
    (strStarts "types" "eip712_" && strEnds "types" "_") = false ∧
    isFieldValueRes (getItem bodyKeyCollision "types") = false :=
  ⟨by decide, by decide, rfl⟩

/-- Witness for the amended C10: a declared non-header, non-body field of the
Permit message returns its value. -/
theorem getitem_semantics_witness :
    getItem permitModel "owner" =
      .ok (.fieldValue (.str "0xf5a2f086cCB7eec82d10bc3600932E9f78d0B212")) :=
  (getitem_semantics permitModel "owner").2.2.2
    (.str "0xf5a2f086cCB7eec82d10bc3600932E9f78d0B212") (by decide) (by rfl) (by rfl)

/-! ## The type-graph builder (eip712/utils.py): C3 and C5 -/

/-- Model of a Python type annotation as classified by `get_abi_type`: an
`eth_pydantic_types.abi` scalar class (whose class name is the ABI type
string), one of the four supported non-ABI types, a pydantic model reference,
or `list[T]`. -/
inductive PyType where
  | abiScalar : String → PyType
  | address : PyType
  | hexbytes : PyType
  | pybytes : PyType
  | pystr : PyType
  | modelRef : String → PyType
  | listOf : PyType → PyType
deriving DecidableEq

/-- `get_abi_type` of eip712/utils.py. -/
def getAbiType : PyType → String
  | .address => "address"
  | .hexbytes => "bytes"
  | .pybytes => "bytes"
  | .pystr => "string"
  | .listOf t => getAbiType t ++ "[]"
  | .abiScalar n => n
  | .modelRef n => n

/-- Environment of model classes: class name to ordered field annotations. -/
abbrev Env := List (String × List (String × PyType))

/-- Look up a model class by name. -/
def lookupEnv (env : Env) (cls : String) : Option (List (String × PyType)) :=
  (env.find? fun p => p.1 == cls).map fun p => p.2

/-- The recursion target of a field, when `build_eip712_type` recurses into
it: a `BaseModel` annotation or a `list[BaseModel]` annotation. -/
def refTarget : PyType → Option String
  | .modelRef m => some m
  | .listOf (.modelRef m) => some m
  | _ => none

/-- Builder-model errors; `outOfFuel` marks recursion exceeding the given
depth bound and so models unbounded Python recursion. -/
inductive BErr where
  | outOfFuel
  | unknownModel : String → BErr
deriving DecidableEq

/-- Append a member to the entry of `cls` in the graph
(`field_types[cls.__name__].append(...)`). -/
def appendField (d : TypesMap) (cls : String) (fd : FieldDef) : TypesMap :=
  d.map fun p => if p.1 == cls then (p.1, p.2 ++ [fd]) else p

/-- The field loop of `build_eip712_type`: for each field in order, recurse
into a referenced model (merging its graph by dict update) when the annotation
is a model or `list[model]`, then append the member entry. -/
def goFields (recurse : String → Except BErr TypesMap) (cls : String) :
    List (String × PyType) → TypesMap → Except BErr TypesMap
  | [], acc => .ok acc
  | (fname, ft) :: rest, acc =>
      match refTarget ft with
      | some tgt =>
          match recurse tgt with
          | .error e => .error e
          | .ok sub =>
              goFields recurse cls rest
                (appendField (dictUpdate acc sub) cls ⟨fname, getAbiType ft⟩)
      | none => goFields recurse cls rest (appendField acc cls ⟨fname, getAbiType ft⟩)

/-- `build_eip712_type`, with explicit recursion fuel: the Python function
performs no cycle detection, so termination of the model is enforced only by
the fuel. -/
def buildEip712Type (env : Env) : Nat → String → Except BErr TypesMap
  | 0, _ => .error .outOfFuel
  | fuel + 1, cls =>
      match lookupEnv env cls with
      | none => .error (.unknownModel cls)
      | some fields => goFields (fun c => buildEip712Type env fuel c) cls fields [(cls, [])]

/-- The key list of a type graph. -/
def keysOf (d : TypesMap) : List String := d.map Prod.fst

/-- Decidable equality for `Except` results. -/
instance exceptDecEq [DecidableEq ε] [DecidableEq α] : DecidableEq (Except ε α) := fun a b =>
  match a, b with
  | .error e₁, .error e₂ =>
      match decEq e₁ e₂ with
      | isTrue h => isTrue (h ▸ rfl)
      | isFalse h => isFalse fun hc => h (Except.error.inj hc)
  | .error _, .ok _ => isFalse fun hc => Except.noConfusion hc
  | .ok _, .error _ => isFalse fun hc => Except.noConfusion hc
  | .ok a₁, .ok a₂ =>
      match decEq a₁ a₂ with
      | isTrue h => isTrue (h ▸ rfl)
      | isFalse h => isFalse fun hc => h (Except.ok.inj hc)

example : buildEip712Type [("A", [("x", .abiScalar "uint256")])] 2 "A" =
    .ok [("A", [⟨"x", "uint256"⟩])] := by decide

/-- A self-referential schema: `class A` with a field annotated `A`. -/
def cyclicEnv : Env := [("A", [("a", .modelRef "A")])]

/-- C3 (observed code behaviour): on the cyclic schema the builder performs no
cycle detection: for every fuel bound the recursion exhausts the bound, and in
particular no schema error distinct from fuel exhaustion is ever produced. -/
theorem cyclic_schema_unbounded_recursion :
    ∀ fuel : Nat, buildEip712Type cyclicEnv fuel "A" = .error .outOfFuel := by
  intro fuel
  induction fuel with
  | zero => rfl
  | succ n ih =>
      show goFields (fun c => buildEip712Type cyclicEnv n c) "A"
        [("a", .modelRef "A")] [("A", [])] = .error .outOfFuel
      simp [goFields, refTarget, ih]


lemma keysOf_appendField (d : TypesMap) (cls : String) (fd : FieldDef) :
    keysOf (appendField d cls fd) = keysOf d := by
  induction d with
  | nil => rfl
  | cons a t ih =>
      have hfst : (if (a.1 == cls) = true then (a.1, a.2 ++ [fd]) else a).1 = a.1 := by
        by_cases hc : (a.1 == cls) = true <;> simp [hc]
      calc keysOf (appendField (a :: t) cls fd)
          = (if (a.1 == cls) = true then (a.1, a.2 ++ [fd]) else a).1 ::
              keysOf (appendField t cls fd) := rfl
        _ = a.1 :: keysOf t := by rw [hfst, ih]
        _ = keysOf (a :: t) := rfl

lemma not_mem_keysOf_of_any_false {d : TypesMap} {k : String}
    (h : (d.any fun p => p.1 == k) = false) : k ∉ keysOf d := by
  intro hmem
  rcases List.mem_map.mp hmem with ⟨p, hp, hfst⟩
  have htrue : (d.any fun p => p.1 == k) = true :=
    List.any_eq_true.mpr ⟨p, hp, by rw [hfst]; exact beq_self_eq_true k⟩
  rw [h] at htrue
  cases htrue

lemma mem_keysOf_of_any_true {d : TypesMap} {k : String}
    (h : (d.any fun p => p.1 == k) = true) : k ∈ keysOf d := by
  rcases List.any_eq_true.mp h with ⟨p, hp, hpk⟩
  exact List.mem_map.mpr ⟨p, hp, eq_of_beq hpk⟩

lemma keysOf_map_replaceVal (d : TypesMap) (k : String) (v : List FieldDef) :
    keysOf (d.map fun p => if p.1 == k then (p.1, v) else p) = keysOf d := by
  induction d with
  | nil => rfl
  | cons a t ih =>
      have hfst : (if (a.1 == k) = true then (a.1, v) else a).1 = a.1 := by
        by_cases hc : (a.1 == k) = true <;> simp [hc]
      calc keysOf ((a :: t).map fun p => if p.1 == k then (p.1, v) else p)
          = (if (a.1 == k) = true then (a.1, v) else a).1 ::
              keysOf (t.map fun p => if p.1 == k then (p.1, v) else p) := rfl
        _ = a.1 :: keysOf t := by rw [hfst, ih]
        _ = keysOf (a :: t) := rfl

lemma keysOf_updateOne (d : TypesMap) (kv : String × List FieldDef) :
    keysOf (updateOne d kv) =
      if (d.any fun p => p.1 == kv.1) = true then keysOf d else keysOf d ++ [kv.1] := by
  unfold updateOne
  by_cases h : (d.any fun p => p.1 == kv.1) = true
  · rw [if_pos h, if_pos h, keysOf_map_replaceVal]
  · rw [if_neg h, if_neg h]
    simp [keysOf]

lemma mem_keysOf_updateOne_of_mem {d : TypesMap} {a : String} (kv : String × List FieldDef)
    (h : a ∈ keysOf d) : a ∈ keysOf (updateOne d kv) := by
  rw [keysOf_updateOne]
  by_cases hc : (d.any fun p => p.1 == kv.1) = true
  · rw [if_pos hc]; exact h
  · rw [if_neg hc]; exact List.mem_append_left _ h

lemma self_mem_keysOf_updateOne (d : TypesMap) (kv : String × List FieldDef) :
    kv.1 ∈ keysOf (updateOne d kv) := by
  rw [keysOf_updateOne]
  by_cases hc : (d.any fun p => p.1 == kv.1) = true
  · rw [if_pos hc]; exact mem_keysOf_of_any_true hc
  · rw [if_neg hc]; exact List.mem_append_right _ (List.mem_singleton.mpr rfl)

lemma nodup_keysOf_updateOne {d : TypesMap} (kv : String × List FieldDef)
    (hd : (keysOf d).Nodup) : (keysOf (updateOne d kv)).Nodup := by
  rw [keysOf_updateOne]
  by_cases hc : (d.any fun p => p.1 == kv.1) = true
  · rw [if_pos hc]; exact hd
  · rw [if_neg hc]
    have hfalse : (d.any fun p => p.1 == kv.1) = false := by
      cases hb : (d.any fun p => p.1 == kv.1) with
      | false => rfl
      | true => exact absurd hb hc
    refine List.Nodup.append hd (List.nodup_singleton _) ?_
    intro x hx hy
    rw [List.mem_singleton] at hy
    exact not_mem_keysOf_of_any_false hfalse (hy ▸ hx)

lemma mem_keysOf_dictUpdate_left {a : String} :
    ∀ (u : List (String × List FieldDef)) (d : TypesMap),
      a ∈ keysOf d → a ∈ keysOf (dictUpdate d u)
  | [], _, h => h
  | kv :: rest, d, h =>
      mem_keysOf_dictUpdate_left rest (updateOne d kv) (mem_keysOf_updateOne_of_mem kv h)

lemma mem_keysOf_dictUpdate_right {a : String} :
    ∀ (u : List (String × List FieldDef)) (d : TypesMap),
      a ∈ keysOf u → a ∈ keysOf (dictUpdate d u)
  | [], _, h => absurd h (List.not_mem_nil a)
  | kv :: rest, d, h => by
      have h' : a ∈ kv.1 :: keysOf rest := h
      rcases List.mem_cons.mp h' with hhead | htail
      · exact mem_keysOf_dictUpdate_left rest (updateOne d kv)
          (hhead ▸ self_mem_keysOf_updateOne d kv)
      · exact mem_keysOf_dictUpdate_right rest (updateOne d kv) htail

lemma nodup_keysOf_dictUpdate :
    ∀ (u : List (String × List FieldDef)) (d : TypesMap),
      (keysOf d).Nodup → (keysOf (dictUpdate d u)).Nodup
  | [], _, h => h
  | kv :: rest, d, h =>
      nodup_keysOf_dictUpdate rest (updateOne d kv) (nodup_keysOf_updateOne kv h)

lemma goFields_keys_superset (recurse : String → Except BErr TypesMap) (cls : String) :
    ∀ (fields : List (String × PyType)) (acc g : TypesMap),
      goFields recurse cls fields acc = .ok g → ∀ a ∈ keysOf acc, a ∈ keysOf g := by
  intro fields
  induction fields with
  | nil =>
      intro acc g hg a ha
      cases hg
      exact ha
  | cons fld rest ih =>
      intro acc g hg a ha
      rcases fld with ⟨fname, ft⟩
      rcases hr : refTarget ft with _ | tgt
      · simp only [goFields, hr] at hg
        exact ih _ g hg a (by rw [keysOf_appendField]; exact ha)
      · simp only [goFields, hr] at hg
        rcases hs : recurse tgt with e | sub
        · simp only [hs] at hg
          cases hg
        · simp only [hs] at hg
          exact ih _ g hg a
            (by rw [keysOf_appendField]; exact mem_keysOf_dictUpdate_left _ _ ha)

lemma goFields_keys_nodup (recurse : String → Except BErr TypesMap) (cls : String) :
    ∀ (fields : List (String × PyType)) (acc g : TypesMap),
      (keysOf acc).Nodup → goFields recurse cls fields acc = .ok g → (keysOf g).Nodup := by
  intro fields
  induction fields with
  | nil =>
      intro acc g hacc hg
      cases hg
      exact hacc
  | cons fld rest ih =>
      intro acc g hacc hg
      rcases fld with ⟨fname, ft⟩
      rcases hr : refTarget ft with _ | tgt
      · simp only [goFields, hr] at hg
        exact ih _ g (by rw [keysOf_appendField]; exact hacc) hg
      · simp only [goFields, hr] at hg
        rcases hs : recurse tgt with e | sub
        · simp only [hs] at hg
          cases hg
        · simp only [hs] at hg
          exact ih _ g
            (by rw [keysOf_appendField]; exact nodup_keysOf_dictUpdate _ _ hacc) hg

lemma goFields_ref_mem (recurse : String → Except BErr TypesMap) (cls : String)
    (hrec : ∀ m g', recurse m = .ok g' → m ∈ keysOf g') :
    ∀ (fields : List (String × PyType)) (acc g : TypesMap),
      goFields recurse cls fields acc = .ok g →
      ∀ fname ft tgt, (fname, ft) ∈ fields → refTarget ft = some tgt → tgt ∈ keysOf g := by
  intro fields
  induction fields with
  | nil =>
      intro acc g hg fname ft tgt hmem
      exact absurd hmem (List.not_mem_nil _)
  | cons fld rest ih =>
      intro acc g hg fname ft tgt hmem href
      rcases fld with ⟨gname, gt⟩
      rcases List.mem_cons.mp hmem with hhead | htail
      · cases hhead
        simp only [goFields, href] at hg
        rcases hs : recurse tgt with e | sub
        · simp only [hs] at hg
          cases hg
        · simp only [hs] at hg
          refine goFields_keys_superset recurse cls rest _ g hg tgt ?_
          rw [keysOf_appendField]
          exact mem_keysOf_dictUpdate_right _ _ (hrec tgt sub hs)
      · rcases hr : refTarget gt with _ | tgt'
        · simp only [goFields, hr] at hg
          exact ih _ g hg fname ft tgt htail href
        · simp only [goFields, hr] at hg
          rcases hs : recurse tgt' with e | sub
          · simp only [hs] at hg
            cases hg
          · simp only [hs] at hg
            exact ih _ g hg fname ft tgt htail href

lemma buildTy_head_mem (env : Env) (fuel : Nat) (cls : String) (g : TypesMap)
    (h : buildEip712Type env fuel cls = .ok g) : cls ∈ keysOf g := by
  cases fuel with
  | zero => cases h
  | succ n =>
      rcases he : lookupEnv env cls with _ | fields
      · simp only [buildEip712Type, he] at h
        cases h
      · simp only [buildEip712Type, he] at h
        exact goFields_keys_superset _ cls fields _ g h cls (by simp [keysOf])

/-- C5: when the builder succeeds, a struct type referenced from a field of
the primary type (directly or through an array-of-struct annotation) appears
exactly once as a key of the built type graph, however many fields reference
it. -/
theorem struct_type_key_exactly_once (env : Env) (fuel : Nat) (primary : String)
    (g : TypesMap) (fields : List (String × PyType)) (fname : String) (ft : PyType)
    (tgt : String)
    (hb : buildEip712Type env fuel primary = .ok g)
    (henv : lookupEnv env primary = some fields)
    (hf : (fname, ft) ∈ fields) (href : refTarget ft = some tgt) :
    (keysOf g).count tgt = 1 := by
  cases fuel with
  | zero => cases hb
  | succ n =>
      simp only [buildEip712Type, henv] at hb
      have hmem : tgt ∈ keysOf g :=
        goFields_ref_mem _ primary (fun m g' hmg => buildTy_head_mem env n m g' hmg)
          fields _ g hb fname ft tgt hf href
      have hnd : (keysOf g).Nodup :=
        goFields_keys_nodup _ primary fields _ g (by simp [keysOf]) hb
      exact List.count_eq_one_of_mem hnd hmem

/-- A schema in which `Sub` is referenced twice from the primary type: once
directly and once through an array annotation. -/
def dedupEnv : Env :=
  [("Main", [("a", .modelRef "Sub"), ("b", .listOf (.modelRef "Sub"))]),
   ("Sub", [("x", .abiScalar "uint256")])]

/-- Witness for C5 at the concrete doubly-referencing schema. -/
theorem struct_type_key_exactly_once_witness :
    buildEip712Type dedupEnv 3 "Main" =
      .ok [("Main", [⟨"a", "Sub"⟩, ⟨"b", "Sub[]"⟩]), ("Sub", [⟨"x", "uint256"⟩])] ∧
    (keysOf [("Main", [⟨"a", "Sub"⟩, ⟨"b", "Sub[]"⟩]), ("Sub", [⟨"x", "uint256"⟩])]).count
      "Sub" = 1 :=
  ⟨by decide,
   struct_type_key_exactly_once dedupEnv 3 "Main"
     [("Main", [⟨"a", "Sub"⟩, ⟨"b", "Sub[]"⟩]), ("Sub", [⟨"x", "uint256"⟩])]
     [("a", .modelRef "Sub"), ("b", .listOf (.modelRef "Sub"))]
     "a" (.modelRef "Sub") "Sub" (by decide) (by decide) (by decide) (by decide)⟩

/-! ## C8: validation of string type annotations -/

/-- Whether a character may start an identifier (`[a-zA-Z_$]`). -/
def isIdentStart (c : Char) : Bool := c.isAlpha || c == '_' || c == '$'

/-- Whether a character may continue an identifier (`[a-zA-Z_$0-9]`). -/
def isIdentChar (c : Char) : Bool := c.isAlpha || c.isDigit || c == '_' || c == '$'

/-- Scanner for the tail of the type grammar
`identifier ( "[" digits? "]" )*` (digits without a leading zero).  State 3 is
inside the identifier, 0 after a closed bracket group, 1 right after `[`, and
2 inside digits. -/
def grammarScan : List Char → Nat → Bool
  | [], st => st == 3 || st == 0
  | c :: rest, st =>
      if st == 3 then
        if isIdentChar c then grammarScan rest 3
        else c == '[' && grammarScan rest 1
      else if st == 0 then c == '[' && grammarScan rest 1
      else if st == 1 then
        if c == ']' then grammarScan rest 0
        else (49 ≤ c.toNat && c.toNat ≤ 57) && grammarScan rest 2
      else
        if c == ']' then grammarScan rest 0
        else c.isDigit && grammarScan rest 2

/-- The `TYPE_REGEX` grammar of eip712/validation.py:
`^[a-zA-Z_$][a-zA-Z_$0-9]*(\x5b([1-9][0-9]*)*\x5d)*$`. -/
def typeGrammarOk (s : String) : Bool :=
  match s.data with
  | [] => false
  | c :: rest => isIdentStart c && grammarScan rest 3

/-- Parse a nonempty decimal digit run without a leading zero. -/
def parseDecAux : List Char → Nat → Option Nat
  | [], acc => some acc
  | c :: rest, acc =>
      if c.isDigit then parseDecAux rest (acc * 10 + (c.toNat - 48)) else none

/-- Decimal value of a digit list; rejects the empty list and leading zeros. -/
def parseDec : List Char → Option Nat
  | [] => none
  | c :: rest =>
      if c == '0' then (if rest.isEmpty then some 0 else none)
      else if 49 ≤ c.toNat && c.toNat ≤ 57 then parseDecAux (c :: rest) 0
      else none

/-- Modelled from the spec: the fixed elementary type set of §4.1 (`address`,
`bool`, `string`, `bytes`, `bytesN` for N in 1..32, `uintN`/`intN` for N a
multiple of 8 in 8..256), standing in for the external
`eth_abi.is_encodable_type` used by the library. -/
def elementaryOk (base : String) : Bool :=
  base == "address" || base == "bool" || base == "string" || base == "bytes" ||
  (strStarts base "bytes" &&
    match parseDec (base.data.drop 5) with
    | some n => decide (1 ≤ n ∧ n ≤ 32)
    | none => false) ||
  (strStarts base "uint" &&
    match parseDec (base.data.drop 4) with
    | some n => decide (n % 8 = 0 ∧ 8 ≤ n ∧ n ≤ 256)
    | none => false) ||
  (strStarts base "int" &&
    match parseDec (base.data.drop 3) with
    | some n => decide (n % 8 = 0 ∧ 8 ≤ n ∧ n ≤ 256)
    | none => false)

/-- The full validator for a string type annotation: the grammar must match
and the base name (array suffixes stripped) must be elementary. -/
def isValidAbiType (s : String) : Bool :=
  typeGrammarOk s && elementaryOk (baseTypeName s)

example : isValidAbiType "uint256" = true := by decide
example : isValidAbiType "bytes32" = true := by decide
example : isValidAbiType "uint256[]" = true := by decide
example : isValidAbiType "bytes32[4]" = true := by decide
example : isValidAbiType "address" = true := by decide
example : isValidAbiType "bytes" = true := by decide
example : isValidAbiType "uint7" = false := by decide
example : isValidAbiType "bytes33" = false := by decide
example : isValidAbiType "uint" = false := by decide
example : isValidAbiType "int0" = false := by decide
example : isValidAbiType "foo" = false := by decide
example : isValidAbiType "uint256[x]" = false := by decide
example : isValidAbiType "uint256[01]" = false := by decide
example : isValidAbiType "" = false := by decide

/-- The error raised for an invalid string annotation, carrying the offending
field name and the invalid annotation text. -/
inductive AnnErr where
  | invalidType : String → String → AnnErr
deriving DecidableEq

/-- The string-annotation branch of `EIP712Type.eip712_types`: validate each
field's annotation in declaration order, accumulating member entries, and
fail on the first invalid annotation naming the field and the annotation. -/
def validateStringFieldsAux : List (String × String) → List FieldDef →
    Except AnnErr (List FieldDef)
  | [], acc => .ok acc
  | (fname, ftype) :: rest, acc =>
      if isValidAbiType ftype then validateStringFieldsAux rest (acc ++ [⟨fname, ftype⟩])
      else .error (.invalidType fname ftype)

/-- Build the member list of a message class from string annotations. -/
def validateStringFields (fields : List (String × String)) : Except AnnErr (List FieldDef) :=
  validateStringFieldsAux fields []

lemma validateStringFieldsAux_invalid {fields : List (String × String)} {f t : String}
    (hmem : (f, t) ∈ fields) (hbad : isValidAbiType t = false) :
    ∀ acc, ∃ f' t', validateStringFieldsAux fields acc = .error (.invalidType f' t') ∧
      (f', t') ∈ fields ∧ isValidAbiType t' = false := by
  induction fields with
  | nil => exact absurd hmem (List.not_mem_nil _)
  | cons hd rest ih =>
      intro acc
      rcases hd with ⟨g, u⟩
      by_cases hu : isValidAbiType u = true
      · have hne : (f, t) ≠ (g, u) := by
          intro hc
          obtain ⟨hf, ht⟩ := Prod.mk.injEq f t g u ▸ hc
          rw [ht] at hbad
          rw [hu] at hbad
          cases hbad
        have htail : (f, t) ∈ rest := by
          rcases List.mem_cons.mp hmem with hh | htl
          · exact absurd hh hne
          · exact htl
        rcases ih htail (acc ++ [⟨g, u⟩]) with ⟨f', t', heq, hmem', hbad'⟩
        refine ⟨f', t', ?_, List.mem_cons_of_mem _ hmem', hbad'⟩
        simpa [validateStringFieldsAux, hu] using heq
      · have hu' : isValidAbiType u = false := by
          cases hb : isValidAbiType u with
          | false => rfl
          | true => exact absurd hb hu
        refine ⟨g, u, ?_, List.mem_cons_self _ _, hu'⟩
        simp [validateStringFieldsAux, hu']

/-- C8: a field whose string annotation fails the grammar or names a type
outside the fixed elementary set makes construction of the member list fail
with an error naming an offending field and its invalid annotation. -/
theorem invalid_annotation_named_in_error (fields : List (String × String)) (f t : String)
    (hmem : (f, t) ∈ fields) (hbad : isValidAbiType t = false) :
    ∃ f' t', validateStringFields fields = .error (.invalidType f' t') ∧
      (f', t') ∈ fields ∧ isValidAbiType t' = false :=
  validateStringFieldsAux_invalid hmem hbad []

/-- Witness for C8: a schema with a valid field and an invalid `uint7`
annotation. -/
theorem invalid_annotation_named_in_error_witness :
    isValidAbiType "uint7" = false ∧
    ∃ f' t',
      validateStringFields [("value", "uint256"), ("bogus", "uint7")] =
        .error (.invalidType f' t') ∧
      (f', t') ∈ [("value", "uint256"), ("bogus", "uint7")] ∧
      isValidAbiType t' = false :=
  ⟨by decide,
   invalid_annotation_named_in_error [("value", "uint256"), ("bogus", "uint7")]
     "bogus" "uint7" (by decide) (by decide)⟩
